import Mathlib

/-!
Verification of the binary container codec and size-constrained recompression
engine of `vry_mobile.py` (PAKTool, MiniOBBUnpacker, and the embedded emote
modder functions).  Byte strings are modelled as `List Nat` (each element a
byte value), Python integer arithmetic as `Nat`/`Int` as appropriate, and the
external compression libraries (zstd, zlib) as abstract function parameters,
since only the repository's own logic is under verification.
-/

namespace VryMobile

/-! ## StaticXOR cipher (`PAKTool.xor_decrypt`, key `0x79`) -/

/-- Source `PAKTool.XOR_KEY = 0x79`. -/
def XOR_KEY : Nat := 0x79

/-- Source `PAKTool.xor_decrypt`: `bytes(b ^ self.XOR_KEY for b in data)`. -/
def xor_decrypt (data : List Nat) : List Nat :=
  data.map (fun b => b ^^^ XOR_KEY)

/-! ## FeedbackXOR cipher (embedded functions from `pak_modified.py`) -/

/-- The single entry of `SIG2KEY_EMBEDDED`: signature `9DC7` maps to key
`E55B4ED1`. -/
def KEY_EMBEDDED : List Nat := [0xE5, 0x5B, 0x4E, 0xD1]

/-- Source `is_sig_at_embedded(data, i)`: returns the key when the two raw bytes at
position `i` match the signature `9D C7`, `None` otherwise (also when fewer
than two bytes remain). -/
def is_sig_at_embedded (data : List Nat) (i : Nat) : Option (List Nat) :=
  if i + 2 ≤ data.length ∧ data.getD i 0 = 0x9D ∧ data.getD (i+1) 0 = 0xC7 then
    some KEY_EMBEDDED
  else
    none

/-- The loop state of both feedback-cipher loops: accumulated output, current
key (`None` before the first signature), position inside the current keyed
window, and the output/input offset at which the window started. -/
structure FBState where
  out : List Nat
  key : Option (List Nat)
  seg_pos : Nat
  seg_start_out : Nat
  deriving Repr, DecidableEq

/-- One iteration of the `while i < L` loop of
`xor_decode_with_feedback_embedded`: reset the window when the raw ciphertext
carries a signature at `i`, then emit one decoded byte (key bytes for window
offsets `< 4`, feedback on already-decoded output at `seg_start_out +
(seg_pos - 4)` afterwards). -/
def xor_decode_step (data : List Nat) (s : FBState) (i : Nat) : FBState :=
  let s1 : FBState :=
    match is_sig_at_embedded data i with
    | some k => { s with key := some k, seg_pos := 0, seg_start_out := s.out.length }
    | none => s
  match s1.key with
  | some key =>
      let o :=
        if s1.seg_pos < 4 then
          data.getD i 0 ^^^ key.getD s1.seg_pos 0
        else
          data.getD i 0 ^^^ s1.out.getD (s1.seg_start_out + (s1.seg_pos - 4)) 0
      { s1 with out := s1.out ++ [o], seg_pos := s1.seg_pos + 1 }
  | none => { s1 with out := s1.out ++ [data.getD i 0] }

/-- Source `xor_decode_with_feedback_embedded(data)`. -/
def xor_decode_with_feedback_embedded (data : List Nat) : List Nat :=
  ((List.range data.length).foldl (xor_decode_step data) ⟨[], none, 0, 0⟩).out

/-- One iteration of the `for i in range(L)` loop of
`xor_reencode_from_original_embedded`: window resets are detected on the
*original ciphertext*, feedback is taken from the *modified plaintext*. -/
def xor_reencode_step (encoded_original decoded_modified : List Nat)
    (s : FBState) (i : Nat) : FBState :=
  let s1 : FBState :=
    match is_sig_at_embedded encoded_original i with
    | some k => { s with key := some k, seg_pos := 0, seg_start_out := i }
    | none => s
  match s1.key with
  | some key =>
      let b :=
        if s1.seg_pos < 4 then
          decoded_modified.getD i 0 ^^^ key.getD s1.seg_pos 0
        else
          decoded_modified.getD i 0 ^^^
            decoded_modified.getD (s1.seg_start_out + (s1.seg_pos - 4)) 0
      { s1 with out := s1.out ++ [b], seg_pos := s1.seg_pos + 1 }
  | none => { s1 with out := s1.out ++ [decoded_modified.getD i 0] }

/-- Source `xor_reencode_from_original_embedded(encoded_original, decoded_modified)`
(the Python function asserts equal lengths; the model is used on that
domain). -/
def xor_reencode_from_original_embedded
    (encoded_original decoded_modified : List Nat) : List Nat :=
  ((List.range decoded_modified.length).foldl
    (xor_reencode_step encoded_original decoded_modified) ⟨[], none, 0, 0⟩).out

/-! ### Helper lemmas about `List.getD` and `List.take` -/

theorem getD_take_of_lt {α : Type} {l : List α} {n j : Nat} (h : j < n) (d : α) :
    (l.take n).getD j d = l.getD j d := by
  simp [List.getD_eq_getElem?_getD, List.getElem?_take_of_lt h]

theorem getD_append_snoc {α : Type} (l : List α) (b d : α) :
    (l ++ [b]).getD l.length d = b := by
  rw [List.getD_append_right l [b] d l.length le_rfl]
  simp

theorem getD_append_left {α : Type} (l l2 : List α) {j : Nat} (h : j < l.length) (d : α) :
    (l ++ l2).getD j d = l.getD j d :=
  List.getD_append l l2 d j h

theorem take_succ_getD {α : Type} {l : List α} {n : Nat} (h : n < l.length) (d : α) :
    l.take (n+1) = l.take n ++ [l.getD n d] := by
  rw [List.take_succ]
  congr 1
  rw [List.getElem?_eq_getElem h]
  simp [List.getD_eq_getElem?_getD, List.getElem?_eq_getElem h]

/-! ### The decode and re-encode loop states after `n` iterations -/

/-- State of the `xor_decode_with_feedback_embedded` loop after the first `n`
iterations. -/
def dstate (data : List Nat) (n : Nat) : FBState :=
  (List.range n).foldl (xor_decode_step data) ⟨[], none, 0, 0⟩

/-- State of the `xor_reencode_from_original_embedded` loop after the first
`n` iterations. -/
def estate (c p : List Nat) (n : Nat) : FBState :=
  (List.range n).foldl (xor_reencode_step c p) ⟨[], none, 0, 0⟩

theorem decode_eq_dstate (data : List Nat) :
    xor_decode_with_feedback_embedded data = (dstate data data.length).out := rfl

theorem reencode_eq_estate (c p : List Nat) :
    xor_reencode_from_original_embedded c p = (estate c p p.length).out := rfl

theorem dstate_succ (data : List Nat) (n : Nat) :
    dstate data (n+1) = xor_decode_step data (dstate data n) n := by
  simp [dstate, List.range_succ]

theorem estate_succ (c p : List Nat) (n : Nat) :
    estate c p (n+1) = xor_reencode_step c p (estate c p n) n := by
  simp [estate, List.range_succ]

theorem xor_decode_step_out (data : List Nat) (s : FBState) (i : Nat) :
    ∃ b, (xor_decode_step data s i).out = s.out ++ [b] := by
  unfold xor_decode_step
  cases hsig : is_sig_at_embedded data i <;> cases hk : s.key <;>
    simp [hsig, hk]

theorem xor_reencode_step_out (c p : List Nat) (s : FBState) (i : Nat) :
    ∃ b, (xor_reencode_step c p s i).out = s.out ++ [b] := by
  unfold xor_reencode_step
  cases hsig : is_sig_at_embedded c i <;> cases hk : s.key <;>
    simp [hsig, hk]

theorem dstate_out_length (data : List Nat) (n : Nat) :
    (dstate data n).out.length = n := by
  induction n with
  | zero => rfl
  | succ n ih =>
      obtain ⟨b, hb⟩ := xor_decode_step_out data (dstate data n) n
      rw [dstate_succ, hb]
      simp [ih]

theorem estate_out_length (c p : List Nat) (n : Nat) :
    (estate c p n).out.length = n := by
  induction n with
  | zero => rfl
  | succ n ih =>
      obtain ⟨b, hb⟩ := xor_reencode_step_out c p (estate c p n) n
      rw [estate_succ, hb]
      simp [ih]

theorem dstate_out_take (data : List Nat) {m n : Nat} (h : m ≤ n) :
    (dstate data n).out.take m = (dstate data m).out := by
  induction n with
  | zero =>
      have : m = 0 := Nat.le_zero.mp h
      subst this; rfl
  | succ n ih =>
      rcases Nat.eq_or_lt_of_le h with heq | hlt
      · subst heq
        exact List.take_of_length_le (by rw [dstate_out_length])
      · obtain ⟨b, hb⟩ := xor_decode_step_out data (dstate data n) n
        rw [dstate_succ, hb, List.take_append_of_le_length
          (by rw [dstate_out_length]; exact Nat.lt_succ_iff.mp hlt)]
        exact ih (Nat.lt_succ_iff.mp hlt)

theorem estate_out_take (c p : List Nat) {m n : Nat} (h : m ≤ n) :
    (estate c p n).out.take m = (estate c p m).out := by
  induction n with
  | zero =>
      have : m = 0 := Nat.le_zero.mp h
      subst this; rfl
  | succ n ih =>
      rcases Nat.eq_or_lt_of_le h with heq | hlt
      · subst heq
        exact List.take_of_length_le (by rw [estate_out_length])
      · obtain ⟨b, hb⟩ := xor_reencode_step_out c p (estate c p n) n
        rw [estate_succ, hb, List.take_append_of_le_length
          (by rw [estate_out_length]; exact Nat.lt_succ_iff.mp hlt)]
        exact ih (Nat.lt_succ_iff.mp hlt)

/-! ### Branch characterizations of the two step functions -/

theorem xor_decode_step_sig (data : List Nat) (s : FBState) (i : Nat) (k : List Nat)
    (hsig : is_sig_at_embedded data i = some k) :
    xor_decode_step data s i =
      { out := s.out ++ [data.getD i 0 ^^^ k.getD 0 0]
        key := some k
        seg_pos := 1
        seg_start_out := s.out.length } := by
  simp [xor_decode_step, hsig]

theorem xor_decode_step_nosig_none (data : List Nat) (s : FBState) (i : Nat)
    (hsig : is_sig_at_embedded data i = none) (hk : s.key = none) :
    xor_decode_step data s i = { s with out := s.out ++ [data.getD i 0] } := by
  simp [xor_decode_step, hsig, hk]

theorem xor_decode_step_nosig_lt (data : List Nat) (s : FBState) (i : Nat) (key : List Nat)
    (hsig : is_sig_at_embedded data i = none) (hk : s.key = some key)
    (hlt : s.seg_pos < 4) :
    xor_decode_step data s i =
      { s with
        out := s.out ++ [data.getD i 0 ^^^ key.getD s.seg_pos 0]
        seg_pos := s.seg_pos + 1 } := by
  simp [xor_decode_step, hsig, hk, hlt]

theorem xor_decode_step_nosig_ge (data : List Nat) (s : FBState) (i : Nat) (key : List Nat)
    (hsig : is_sig_at_embedded data i = none) (hk : s.key = some key)
    (hge : ¬ s.seg_pos < 4) :
    xor_decode_step data s i =
      { s with
        out := s.out ++ [data.getD i 0 ^^^ s.out.getD (s.seg_start_out + (s.seg_pos - 4)) 0]
        seg_pos := s.seg_pos + 1 } := by
  simp [xor_decode_step, hsig, hk, hge]

theorem xor_reencode_step_sig (c p : List Nat) (s : FBState) (i : Nat) (k : List Nat)
    (hsig : is_sig_at_embedded c i = some k) :
    xor_reencode_step c p s i =
      { out := s.out ++ [p.getD i 0 ^^^ k.getD 0 0]
        key := some k
        seg_pos := 1
        seg_start_out := i } := by
  simp [xor_reencode_step, hsig]

theorem xor_reencode_step_nosig_none (c p : List Nat) (s : FBState) (i : Nat)
    (hsig : is_sig_at_embedded c i = none) (hk : s.key = none) :
    xor_reencode_step c p s i = { s with out := s.out ++ [p.getD i 0] } := by
  simp [xor_reencode_step, hsig, hk]

theorem xor_reencode_step_nosig_lt (c p : List Nat) (s : FBState) (i : Nat) (key : List Nat)
    (hsig : is_sig_at_embedded c i = none) (hk : s.key = some key)
    (hlt : s.seg_pos < 4) :
    xor_reencode_step c p s i =
      { s with
        out := s.out ++ [p.getD i 0 ^^^ key.getD s.seg_pos 0]
        seg_pos := s.seg_pos + 1 } := by
  simp [xor_reencode_step, hsig, hk, hlt]

theorem xor_reencode_step_nosig_ge (c p : List Nat) (s : FBState) (i : Nat) (key : List Nat)
    (hsig : is_sig_at_embedded c i = none) (hk : s.key = some key)
    (hge : ¬ s.seg_pos < 4) :
    xor_reencode_step c p s i =
      { s with
        out := s.out ++ [p.getD i 0 ^^^ p.getD (s.seg_start_out + (s.seg_pos - 4)) 0]
        seg_pos := s.seg_pos + 1 } := by
  simp [xor_reencode_step, hsig, hk, hge]

/-- In the decode loop, whenever a key is active the window bookkeeping
satisfies `seg_start_out + seg_pos = n` (the current input index), so the
feedback index `seg_start_out + (seg_pos - 4)` is `n - 4`. -/
theorem dstate_sum (data : List Nat) (n : Nat) :
    (dstate data n).key.isSome = true →
      (dstate data n).seg_start_out + (dstate data n).seg_pos = n := by
  induction n with
  | zero =>
      intro h
      have h0 : dstate data 0 = ⟨[], none, 0, 0⟩ := rfl
      rw [h0] at h
      simp at h
  | succ n ih =>
      intro hks
      rw [dstate_succ]
      cases hsig : is_sig_at_embedded data n with
      | some k =>
          rw [xor_decode_step_sig data _ n k hsig]
          simp [dstate_out_length]
      | none =>
          cases hk : (dstate data n).key with
          | some key =>
              have hsum := ih (by rw [hk]; rfl)
              by_cases hlt : (dstate data n).seg_pos < 4
              · rw [xor_decode_step_nosig_lt data _ n key hsig hk hlt]
                simp only []
                omega
              · rw [xor_decode_step_nosig_ge data _ n key hsig hk hlt]
                simp only []
                omega
          | none =>
              rw [dstate_succ, xor_decode_step_nosig_none data _ n hsig hk] at hks
              simp [hk] at hks

/-- Re-encode loop analogue of `dstate_sum`. -/
theorem estate_sum (c p : List Nat) (n : Nat) :
    (estate c p n).key.isSome = true →
      (estate c p n).seg_start_out + (estate c p n).seg_pos = n := by
  induction n with
  | zero =>
      intro h
      have h0 : estate c p 0 = ⟨[], none, 0, 0⟩ := rfl
      rw [h0] at h
      simp at h
  | succ n ih =>
      intro hks
      rw [estate_succ]
      cases hsig : is_sig_at_embedded c n with
      | some k =>
          rw [xor_reencode_step_sig c p _ n k hsig]
      | none =>
          cases hk : (estate c p n).key with
          | some key =>
              have hsum := ih (by rw [hk]; rfl)
              by_cases hlt : (estate c p n).seg_pos < 4
              · rw [xor_reencode_step_nosig_lt c p _ n key hsig hk hlt]
                simp only []
                omega
              · rw [xor_reencode_step_nosig_ge c p _ n key hsig hk hlt]
                simp only []
                omega
          | none =>
              rw [estate_succ, xor_reencode_step_nosig_none c p _ n hsig hk] at hks
              simp [hk] at hks

theorem getD_snoc_length {α : Type} {l : List α} {j : Nat} (h : l.length = j)
    (b d : α) : (l ++ [b]).getD j d = b := by
  subst h; exact getD_append_snoc l b d

/-- Core simulation for re-encoding an unmodified decode: the re-encode loop
run on `(c, decode c)` tracks exactly the key/window state of the decode loop
on `c` and reconstructs the ciphertext prefix `c.take n`. -/
theorem c10_inv (c : List Nat) :
    ∀ n, n ≤ c.length →
      estate c (xor_decode_with_feedback_embedded c) n =
        { out := c.take n
          key := (dstate c n).key
          seg_pos := (dstate c n).seg_pos
          seg_start_out := (dstate c n).seg_start_out } := by
  intro n
  induction n with
  | zero => intro _; rfl
  | succ n ih =>
      intro h
      have hn : n < c.length := h
      have hle : n ≤ c.length := Nat.le_of_lt hn
      have hp : (xor_decode_with_feedback_embedded c).getD n 0
          = ((xor_decode_step c (dstate c n) n).out).getD n 0 := by
        have h1 : ((dstate c c.length).out.take (n+1)).getD n 0
            = (dstate c c.length).out.getD n 0 :=
          getD_take_of_lt (Nat.lt_succ_self n) 0
        rw [decode_eq_dstate, ← h1, dstate_out_take c h, dstate_succ]
      rw [estate_succ, ih hle, dstate_succ]
      cases hsig : is_sig_at_embedded c n with
      | some k =>
          have hb : (xor_decode_with_feedback_embedded c).getD n 0
              = c.getD n 0 ^^^ k.getD 0 0 := by
            rw [hp, xor_decode_step_sig c (dstate c n) n k hsig]
            exact getD_snoc_length (dstate_out_length c n) _ _
          rw [xor_reencode_step_sig c (xor_decode_with_feedback_embedded c) _ n k hsig,
            xor_decode_step_sig c (dstate c n) n k hsig]
          dsimp only
          rw [hb, Nat.xor_cancel_right, ← take_succ_getD hn 0]
          simp [dstate_out_length]
      | none =>
          cases hk : (dstate c n).key with
          | none =>
              have hb : (xor_decode_with_feedback_embedded c).getD n 0
                  = c.getD n 0 := by
                rw [hp, xor_decode_step_nosig_none c (dstate c n) n hsig hk]
                exact getD_snoc_length (dstate_out_length c n) _ _
              rw [xor_reencode_step_nosig_none c (xor_decode_with_feedback_embedded c)
                  ⟨c.take n, none, (dstate c n).seg_pos, (dstate c n).seg_start_out⟩
                  n hsig rfl,
                xor_decode_step_nosig_none c (dstate c n) n hsig hk]
              dsimp only
              rw [hb, ← take_succ_getD hn 0]
              simp [hk]
          | some key =>
              by_cases hlt : (dstate c n).seg_pos < 4
              · have hb : (xor_decode_with_feedback_embedded c).getD n 0
                    = c.getD n 0 ^^^ key.getD ((dstate c n).seg_pos) 0 := by
                  rw [hp, xor_decode_step_nosig_lt c (dstate c n) n key hsig hk hlt]
                  exact getD_snoc_length (dstate_out_length c n) _ _
                rw [xor_reencode_step_nosig_lt c (xor_decode_with_feedback_embedded c)
                    ⟨c.take n, some key, (dstate c n).seg_pos, (dstate c n).seg_start_out⟩
                    n key hsig rfl hlt,
                  xor_decode_step_nosig_lt c (dstate c n) n key hsig hk hlt]
                dsimp only
                rw [hb, Nat.xor_cancel_right, ← take_succ_getD hn 0]
                simp [hk]
              · have hsum : (dstate c n).seg_start_out + (dstate c n).seg_pos = n :=
                  dstate_sum c n (by rw [hk]; rfl)
                have hfb : (dstate c n).seg_start_out + ((dstate c n).seg_pos - 4) < n := by
                  omega
                have hpfb : (xor_decode_with_feedback_embedded c).getD
                      ((dstate c n).seg_start_out + ((dstate c n).seg_pos - 4)) 0
                    = (dstate c n).out.getD
                      ((dstate c n).seg_start_out + ((dstate c n).seg_pos - 4)) 0 := by
                  rw [decode_eq_dstate, ← dstate_out_take c hle,
                    getD_take_of_lt hfb]
                have hb : (xor_decode_with_feedback_embedded c).getD n 0
                    = c.getD n 0 ^^^ (dstate c n).out.getD
                        ((dstate c n).seg_start_out + ((dstate c n).seg_pos - 4)) 0 := by
                  rw [hp, xor_decode_step_nosig_ge c (dstate c n) n key hsig hk hlt]
                  exact getD_snoc_length (dstate_out_length c n) _ _
                rw [xor_reencode_step_nosig_ge c (xor_decode_with_feedback_embedded c)
                    ⟨c.take n, some key, (dstate c n).seg_pos, (dstate c n).seg_start_out⟩
                    n key hsig rfl hlt,
                  xor_decode_step_nosig_ge c (dstate c n) n key hsig hk hlt]
                dsimp only
                rw [hb, hpfb, Nat.xor_cancel_right, ← take_succ_getD hn 0]
                simp [hk]

theorem decode_length (data : List Nat) :
    (xor_decode_with_feedback_embedded data).length = data.length := by
  rw [decode_eq_dstate]; exact dstate_out_length data data.length

theorem reencode_length (c p : List Nat) :
    (xor_reencode_from_original_embedded c p).length = p.length := by
  rw [reencode_eq_estate]; exact estate_out_length c p p.length

/-- C10: re-encoding an unmodified decode reproduces the ciphertext exactly,
for every byte string `c` (with any number of signature-keyed windows), and
both feedback-cipher functions preserve length. -/
theorem claim_C10 (c : List Nat) :
    xor_reencode_from_original_embedded c (xor_decode_with_feedback_embedded c) = c
      ∧ (xor_decode_with_feedback_embedded c).length = c.length
      ∧ ∀ p, (xor_reencode_from_original_embedded c p).length = p.length := by
  refine ⟨?_, decode_length c, fun p => reencode_length c p⟩
  rw [reencode_eq_estate, decode_length c, c10_inv c c.length le_rfl]
  simp

/-- C1 as stated is false: re-encoding may create fresh signature bytes in
the ciphertext, which shift the decode windows.  With original ciphertext
`[0, 0]` (no signature anywhere) and modified plaintext `[0x9D, 0xC7]` (the
signature itself), re-encode is the identity, and decoding its output applies
the key where the original had none. -/
theorem claim_C1_counterexample :
    ([0x9D, 0xC7] : List Nat).length = ([0, 0] : List Nat).length ∧
    xor_decode_with_feedback_embedded
        (xor_reencode_from_original_embedded [0, 0] [0x9D, 0xC7]) ≠ [0x9D, 0xC7] := by
  decide

/-- Core simulation for the amended C1: when the re-encoded ciphertext has
signature matches at exactly the positions the original ciphertext has,
decoding it walks the same key/window state as re-encoding did and recovers
the modified plaintext prefix. -/
theorem c1_inv (c p : List Nat) (hlen : p.length = c.length)
    (hsig : ∀ i, i < c.length →
      is_sig_at_embedded (xor_reencode_from_original_embedded c p) i
        = is_sig_at_embedded c i) :
    ∀ n, n ≤ p.length →
      dstate (xor_reencode_from_original_embedded c p) n =
        { out := p.take n
          key := (estate c p n).key
          seg_pos := (estate c p n).seg_pos
          seg_start_out := (estate c p n).seg_start_out } := by
  intro n
  induction n with
  | zero => intro _; rfl
  | succ n ih =>
      intro h
      have hn : n < p.length := h
      have hple : n ≤ p.length := Nat.le_of_lt hn
      have hnc : n < c.length := hlen ▸ hn
      have hq : (xor_reencode_from_original_embedded c p).getD n 0
          = ((xor_reencode_step c p (estate c p n) n).out).getD n 0 := by
        have h1 : ((estate c p p.length).out.take (n+1)).getD n 0
            = (estate c p p.length).out.getD n 0 :=
          getD_take_of_lt (Nat.lt_succ_self n) 0
        rw [reencode_eq_estate, ← h1, estate_out_take c p h, estate_succ]
      have hsn : is_sig_at_embedded (xor_reencode_from_original_embedded c p) n
          = is_sig_at_embedded c n := hsig n hnc
      rw [dstate_succ, ih hple, estate_succ]
      cases hs : is_sig_at_embedded c n with
      | some k =>
          have hcp : is_sig_at_embedded (xor_reencode_from_original_embedded c p) n
              = some k := by rw [hsn, hs]
          have heb : (xor_reencode_from_original_embedded c p).getD n 0
              = p.getD n 0 ^^^ k.getD 0 0 := by
            rw [hq, xor_reencode_step_sig c p (estate c p n) n k hs]
            exact getD_snoc_length (estate_out_length c p n) _ _
          rw [xor_decode_step_sig (xor_reencode_from_original_embedded c p) _ n k hcp,
            xor_reencode_step_sig c p (estate c p n) n k hs]
          dsimp only
          rw [heb, Nat.xor_cancel_right, ← take_succ_getD hn 0]
          simp [List.length_take, Nat.min_eq_left hple]
      | none =>
          have hcp : is_sig_at_embedded (xor_reencode_from_original_embedded c p) n
              = none := by rw [hsn, hs]
          cases hk : (estate c p n).key with
          | none =>
              have heb : (xor_reencode_from_original_embedded c p).getD n 0
                  = p.getD n 0 := by
                rw [hq, xor_reencode_step_nosig_none c p (estate c p n) n hs hk]
                exact getD_snoc_length (estate_out_length c p n) _ _
              rw [xor_decode_step_nosig_none (xor_reencode_from_original_embedded c p)
                  ⟨p.take n, none, (estate c p n).seg_pos, (estate c p n).seg_start_out⟩
                  n hcp rfl,
                xor_reencode_step_nosig_none c p (estate c p n) n hs hk]
              dsimp only
              rw [heb, ← take_succ_getD hn 0]
              simp [hk]
          | some key =>
              by_cases hlt : (estate c p n).seg_pos < 4
              · have heb : (xor_reencode_from_original_embedded c p).getD n 0
                    = p.getD n 0 ^^^ key.getD ((estate c p n).seg_pos) 0 := by
                  rw [hq, xor_reencode_step_nosig_lt c p (estate c p n) n key hs hk hlt]
                  exact getD_snoc_length (estate_out_length c p n) _ _
                rw [xor_decode_step_nosig_lt (xor_reencode_from_original_embedded c p)
                    ⟨p.take n, some key, (estate c p n).seg_pos, (estate c p n).seg_start_out⟩
                    n key hcp rfl hlt,
                  xor_reencode_step_nosig_lt c p (estate c p n) n key hs hk hlt]
                dsimp only
                rw [heb, Nat.xor_cancel_right, ← take_succ_getD hn 0]
                simp [hk]
              · have hsum : (estate c p n).seg_start_out + (estate c p n).seg_pos = n :=
                  estate_sum c p n (by rw [hk]; rfl)
                have hfb : (estate c p n).seg_start_out + ((estate c p n).seg_pos - 4) < n := by
                  omega
                have heb : (xor_reencode_from_original_embedded c p).getD n 0
                    = p.getD n 0 ^^^ p.getD
                        ((estate c p n).seg_start_out + ((estate c p n).seg_pos - 4)) 0 := by
                  rw [hq, xor_reencode_step_nosig_ge c p (estate c p n) n key hs hk hlt]
                  exact getD_snoc_length (estate_out_length c p n) _ _
                rw [xor_decode_step_nosig_ge (xor_reencode_from_original_embedded c p)
                    ⟨p.take n, some key, (estate c p n).seg_pos, (estate c p n).seg_start_out⟩
                    n key hcp rfl hlt,
                  xor_reencode_step_nosig_ge c p (estate c p n) n key hs hk hlt]
                dsimp only
                rw [getD_take_of_lt hfb, heb, Nat.xor_cancel_right,
                  ← take_succ_getD hn 0]
                simp [hk]

/-- C1 amended: `xor_decrypt` is self-inverse on every byte string; and for
every original ciphertext `c` and modified plaintext `p` of the same length
whose re-encoding carries signature matches at exactly the same positions as
`c`, decode of the re-encode recovers `p`. -/
theorem claim_C1 (x c p : List Nat) (hlen : p.length = c.length)
    (hsig : ∀ i, i < c.length →
      is_sig_at_embedded (xor_reencode_from_original_embedded c p) i
        = is_sig_at_embedded c i) :
    xor_decrypt (xor_decrypt x) = x ∧
    xor_decode_with_feedback_embedded (xor_reencode_from_original_embedded c p) = p := by
  constructor
  · have hxk : ∀ b : Nat, b ^^^ XOR_KEY ^^^ XOR_KEY = b :=
      fun b => Nat.xor_cancel_right XOR_KEY b
    simp [xor_decrypt, List.map_map, Function.comp_def, hxk]
  · rw [decode_eq_dstate, reencode_length c p,
      c1_inv c p hlen hsig p.length le_rfl]
    simp

/-- Witness for `claim_C1` at `x = [5]`, `c = [0, 0]`, `p = [1, 2]`. -/
theorem claim_C1_witness :
    (([1, 2] : List Nat).length = ([0, 0] : List Nat).length ∧
      ∀ i, i < ([0, 0] : List Nat).length →
        is_sig_at_embedded (xor_reencode_from_original_embedded [0, 0] [1, 2]) i
          = is_sig_at_embedded [0, 0] i) ∧
    (xor_decrypt (xor_decrypt [5]) = [5] ∧
      xor_decode_with_feedback_embedded
        (xor_reencode_from_original_embedded [0, 0] [1, 2]) = [1, 2]) :=
  ⟨⟨by decide, by decide⟩, claim_C1 [5] [0, 0] [1, 2] (by decide) (by decide)⟩

/-! ## Python `range` modelled structurally -/

/-- Fuel-indexed ascending range: `pyRangeAux fuel start = [start, start+1, ...]`
with `fuel` elements. -/
def pyRangeAux : Nat → Nat → List Nat
  | 0, _ => []
  | fuel+1, start => start :: pyRangeAux fuel (start+1)

/-- Python `range(start, stop)`. -/
def pyRange (start stop : Nat) : List Nat :=
  pyRangeAux (stop - start) start

/-- Fuel-indexed model of Python `range(v, 0, -3)` (the values `v, v-3, ...`
while positive); `pyRangeDown3Aux v v` has enough fuel since each step
strictly decreases the value. -/
def pyRangeDown3Aux : Nat → Nat → List Nat
  | 0, _ => []
  | fuel+1, v => if 0 < v then v :: pyRangeDown3Aux fuel (v - 3) else []

/-- Python `range(v, 0, -3)`. -/
def pyRangeDown3 (v : Nat) : List Nat :=
  pyRangeDown3Aux v v

theorem pyRangeAux_mem {fuel start l : Nat} (h : l ∈ pyRangeAux fuel start) :
    start ≤ l ∧ l < start + fuel := by
  induction fuel generalizing start with
  | zero => simp [pyRangeAux] at h
  | succ fuel ih =>
      simp only [pyRangeAux, List.mem_cons] at h
      rcases h with h | h
      · omega
      · have := ih h
        omega

theorem pyRangeAux_mem_of {fuel start l : Nat} (h1 : start ≤ l)
    (h2 : l < start + fuel) : l ∈ pyRangeAux fuel start := by
  induction fuel generalizing start with
  | zero => omega
  | succ fuel ih =>
      simp only [pyRangeAux, List.mem_cons]
      rcases Nat.eq_or_lt_of_le h1 with heq | hlt
      · exact Or.inl heq.symm
      · exact Or.inr (ih hlt (by omega))

/-! ## zsdic (`PAKTool`) repack: ascending first-fit, zero-fill, trailer -/

/-- The compression-level loop of `PAKTool.repack`
(`for level in range(1, 23): ... if len(test_compressed) <= required_size:
break`), over an abstract per-level compressor (the zstd library with the
shared dictionary applied to the fixed edited payload).  `required_size` is
an integer because Python computes `original_size - 4` without truncation. -/
def try_levels_zsdic (compress : Nat → List Nat) (required_size : Int) :
    List Nat → Option (List Nat)
  | [] => none
  | l :: ls =>
      let t := compress l
      if (t.length : Int) ≤ required_size then some t
      else try_levels_zsdic compress required_size ls

/-- The per-segment body of `PAKTool.repack` (lines 1166–1219): first-fit over
levels 1..22, zero-fill padding to `required_size`, XOR encryption of the
padded payload, reattachment of the original 4-byte checksum, and the final
size check. -/
def zsdic_repack_segment (compress : Nat → List Nat) (original : List Nat) :
    Option (List Nat) :=
  let original_size := original.length
  let required_size : Int := (original_size : Int) - 4
  let checksum := original.drop (original_size - 4)
  match try_levels_zsdic compress required_size (pyRange 1 23) with
  | none => none
  | some compressed =>
      let padded := compressed ++
        List.replicate (required_size - (compressed.length : Int)).toNat 0
      let encrypted := xor_decrypt padded
      let block := encrypted ++ checksum
      if block.length = original_size then some block else none

/-- One entry of the `dat_files` list built by `PAKTool.find_dat_files`
(`position` and the raw segment bytes; `size` is the length of `data`). -/
structure DatInfo where
  position : Nat
  data : List Nat
  deriving Repr, DecidableEq

/-- Python slice assignment `buf[start:stop] = block` on a list model. -/
def splice (buf : List Nat) (start stop : Nat) (block : List Nat) : List Nat :=
  buf.take start ++ block ++ buf.drop stop

/-- One iteration of the `for edited_file in edited_files` loop of
`PAKTool.repack`: index check, per-segment repack, and on success the splice
`pak_data[start_pos:end_pos] = new_dat_block`; on failure (`compressed_data is
None` or the size check) the loop `continue`s with the buffer untouched. -/
def zsdic_process_one (compress : Nat → List Nat → List Nat)
    (dat_files : List DatInfo) (pak : List Nat) (job : Nat × List Nat) :
    List Nat :=
  let dat_index := job.1
  let edited := job.2
  if dat_index < dat_files.length then
    let od := dat_files.getD dat_index ⟨0, []⟩
    match zsdic_repack_segment (fun l => compress l edited) od.data with
    | none => pak
    | some block => splice pak od.position (od.position + od.data.length) block
  else pak

/-- The whole edited-files loop of `PAKTool.repack` over an in-memory copy of
the container. -/
def zsdic_repack_all (compress : Nat → List Nat → List Nat)
    (dat_files : List DatInfo) (jobs : List (Nat × List Nat))
    (pak : List Nat) : List Nat :=
  jobs.foldl (zsdic_process_one compress dat_files) pak

theorem try_levels_zsdic_pyRangeAux {compress : Nat → List Nat} {required : Int} :
    ∀ fuel start t,
      try_levels_zsdic compress required (pyRangeAux fuel start) = some t →
      ∃ l, start ≤ l ∧ l < start + fuel ∧ t = compress l ∧
        ((compress l).length : Int) ≤ required ∧
        ∀ x, start ≤ x → x < l → required < ((compress x).length : Int) := by
  intro fuel
  induction fuel with
  | zero => intro start t h; simp [pyRangeAux, try_levels_zsdic] at h
  | succ fuel ih =>
      intro start t h
      simp only [pyRangeAux, try_levels_zsdic] at h
      by_cases hfit : ((compress start).length : Int) ≤ required
      · rw [if_pos hfit] at h
        refine ⟨start, le_rfl, by omega, (Option.some.injEq _ _).mp h.symm, hfit, ?_⟩
        intro x hx1 hx2
        omega
      · rw [if_neg hfit] at h
        obtain ⟨l, hl1, hl2, hl3, hl4, hl5⟩ := ih (start+1) t h
        refine ⟨l, by omega, by omega, hl3, hl4, ?_⟩
        intro x hx1 hx2
        rcases Nat.eq_or_lt_of_le hx1 with heq | hlt
        · subst heq; omega
        · exact hl5 x hlt hx2

theorem try_levels_zsdic_none {compress : Nat → List Nat} {required : Int} :
    ∀ fuel start,
      (∀ l, start ≤ l → l < start + fuel →
        required < ((compress l).length : Int)) →
      try_levels_zsdic compress required (pyRangeAux fuel start) = none := by
  intro fuel
  induction fuel with
  | zero => intro start _; rfl
  | succ fuel ih =>
      intro start hbig
      simp only [pyRangeAux, try_levels_zsdic]
      rw [if_neg (by have := hbig start le_rfl (by omega); omega)]
      exact ih (start+1) fun l h1 h2 => hbig l (by omega) (by omega)

theorem zsdic_repack_segment_length {compress : Nat → List Nat}
    {original block : List Nat}
    (h : zsdic_repack_segment compress original = some block) :
    block.length = original.length := by
  unfold zsdic_repack_segment at h
  dsimp only at h
  cases htl : try_levels_zsdic compress ((original.length : Int) - 4) (pyRange 1 23) with
  | none => rw [htl] at h; exact absurd h (by simp)
  | some t =>
      rw [htl] at h
      dsimp only at h
      split at h
      · cases h
        assumption
      · exact absurd h (by simp)

/-- C2: the zsdic repack of a segment compresses at ascending levels 1..22,
keeps the first level whose output fits `required_size = original_size - 4`,
zero-pads to `required_size`, XOR-encrypts, reattaches the 4-byte trailer,
and produces a block whose length equals the original segment size. -/
theorem claim_C2 (compress : Nat → List Nat) (original block : List Nat)
    (h : zsdic_repack_segment compress original = some block) :
    ∃ l, 1 ≤ l ∧ l ≤ 22 ∧
      ((compress l).length : Int) ≤ (original.length : Int) - 4 ∧
      (∀ x, 1 ≤ x → x < l →
        (original.length : Int) - 4 < ((compress x).length : Int)) ∧
      block = xor_decrypt (compress l ++ List.replicate
          (((original.length : Int) - 4 - ((compress l).length : Int)).toNat) 0)
        ++ original.drop (original.length - 4) ∧
      block.length = original.length := by
  have hlen := zsdic_repack_segment_length h
  unfold zsdic_repack_segment at h
  dsimp only at h
  cases htl : try_levels_zsdic compress ((original.length : Int) - 4) (pyRange 1 23) with
  | none => rw [htl] at h; exact absurd h (by simp)
  | some t =>
      rw [htl] at h
      dsimp only at h
      obtain ⟨l, hl1, hl2, hl3, hl4, hl5⟩ :=
        try_levels_zsdic_pyRangeAux 22 1 t htl
      split at h
      · cases h
        exact ⟨l, hl1, by omega, hl3 ▸ hl4, hl5, by rw [hl3], hlen⟩
      · exact absurd h (by simp)

/-! ## splice frame conditions -/

theorem splice_length {buf block : List Nat} {start stop : Nat}
    (h1 : stop ≤ buf.length) (h2 : start ≤ stop)
    (h3 : block.length = stop - start) :
    (splice buf start stop block).length = buf.length := by
  simp [splice, h3]
  omega

theorem splice_getD_left {buf block : List Nat} {start stop j : Nat}
    (hstart : start ≤ buf.length) (hj : j < start) :
    (splice buf start stop block).getD j 0 = buf.getD j 0 := by
  unfold splice
  rw [List.append_assoc, getD_append_left _ _
    (by rw [List.length_take]; omega), getD_take_of_lt hj]

theorem splice_getD_right {buf block : List Nat} {start stop j : Nat}
    (hstart : start ≤ buf.length) (h2 : start ≤ stop)
    (h3 : block.length = stop - start) (hj : stop ≤ j) :
    (splice buf start stop block).getD j 0 = buf.getD j 0 := by
  unfold splice
  have hA : (buf.take start ++ block).length = stop := by
    rw [List.length_append, List.length_take, h3]
    omega
  rw [List.getD_append_right _ _ _ _ (by rw [hA]; exact hj), hA]
  have hd : (buf.drop stop).getD (j - stop) 0 = buf.getD (stop + (j - stop)) 0 := by
    simp [List.getD_eq_getElem?_getD, List.getElem?_drop]
  rw [hd]
  congr 1
  omega

/-- C8: after one successful segment write, the patched container has the
same total length as before, and every byte outside the segment's original
range `[position, position + size)` is unchanged. -/
theorem claim_C8 (compress : Nat → List Nat → List Nat)
    (dat_files : List DatInfo) (pak : List Nat) (idx : Nat)
    (edited : List Nat) (od : DatInfo) (block : List Nat)
    (hidx : idx < dat_files.length)
    (hod : dat_files.getD idx ⟨0, []⟩ = od)
    (hrep : zsdic_repack_segment (fun l => compress l edited) od.data = some block)
    (hbound : od.position + od.data.length ≤ pak.length) :
    (zsdic_process_one compress dat_files pak (idx, edited)).length = pak.length ∧
    ∀ j, j < od.position ∨ od.position + od.data.length ≤ j →
      (zsdic_process_one compress dat_files pak (idx, edited)).getD j 0
        = pak.getD j 0 := by
  have hbl : block.length = od.data.length := zsdic_repack_segment_length hrep
  have hproc : zsdic_process_one compress dat_files pak (idx, edited)
      = splice pak od.position (od.position + od.data.length) block := by
    unfold zsdic_process_one
    rw [if_pos hidx]
    dsimp only
    rw [hod, hrep]
  rw [hproc]
  constructor
  · exact splice_length hbound (by omega) (by omega)
  · intro j hj
    rcases hj with hj | hj
    · exact splice_getD_left (by omega) hj
    · exact splice_getD_right (by omega) (by omega) (by omega) hj

/-- Witness for `claim_C2`: a 3-byte payload that compresses to 2 bytes at
level 1 inside an 8-byte original segment. -/
theorem claim_C2_witness :
    zsdic_repack_segment (fun _ => [7, 7]) [1, 2, 3, 4, 5, 6, 7, 8]
        = some [126, 126, 121, 121, 5, 6, 7, 8] ∧
    ∃ l, 1 ≤ l ∧ l ≤ 22 ∧
      (((fun (_ : Nat) => [(7 : Nat), 7]) l).length : Int)
          ≤ (([1, 2, 3, 4, 5, 6, 7, 8] : List Nat).length : Int) - 4 ∧
      (∀ x, 1 ≤ x → x < l →
        (([1, 2, 3, 4, 5, 6, 7, 8] : List Nat).length : Int) - 4
          < (((fun (_ : Nat) => [(7 : Nat), 7]) x).length : Int)) ∧
      ([126, 126, 121, 121, 5, 6, 7, 8] : List Nat)
        = xor_decrypt ((fun (_ : Nat) => [(7 : Nat), 7]) l ++ List.replicate
            (((([1, 2, 3, 4, 5, 6, 7, 8] : List Nat).length : Int) - 4
              - (((fun (_ : Nat) => [(7 : Nat), 7]) l).length : Int)).toNat) 0)
          ++ ([1, 2, 3, 4, 5, 6, 7, 8] : List Nat).drop
              (([1, 2, 3, 4, 5, 6, 7, 8] : List Nat).length - 4) ∧
      ([126, 126, 121, 121, 5, 6, 7, 8] : List Nat).length
        = ([1, 2, 3, 4, 5, 6, 7, 8] : List Nat).length :=
  ⟨by decide, claim_C2 (fun _ => [7, 7]) [1, 2, 3, 4, 5, 6, 7, 8]
    [126, 126, 121, 121, 5, 6, 7, 8] (by decide)⟩

/-- Witness for `claim_C8` on a concrete 10-byte container. -/
theorem claim_C8_witness :
    ((0 : Nat) < ([⟨2, [1, 2, 3, 4, 5, 6]⟩] : List DatInfo).length) ∧
    (([⟨2, [1, 2, 3, 4, 5, 6]⟩] : List DatInfo).getD 0 ⟨0, []⟩
      = ⟨2, [1, 2, 3, 4, 5, 6]⟩) ∧
    (zsdic_repack_segment (fun l => (fun _ _ => [9]) l [4, 4])
        ([1, 2, 3, 4, 5, 6] : List Nat) = some [112, 121, 3, 4, 5, 6]) ∧
    ((2 : Nat) + ([1, 2, 3, 4, 5, 6] : List Nat).length
      ≤ ([10, 11, 12, 13, 14, 15, 16, 17, 18, 19] : List Nat).length) ∧
    ((zsdic_process_one (fun _ _ => [9]) [⟨2, [1, 2, 3, 4, 5, 6]⟩]
        [10, 11, 12, 13, 14, 15, 16, 17, 18, 19] (0, [4, 4])).length
      = ([10, 11, 12, 13, 14, 15, 16, 17, 18, 19] : List Nat).length ∧
     ∀ j, j < 2 ∨ 2 + ([1, 2, 3, 4, 5, 6] : List Nat).length ≤ j →
      (zsdic_process_one (fun _ _ => [9]) [⟨2, [1, 2, 3, 4, 5, 6]⟩]
        [10, 11, 12, 13, 14, 15, 16, 17, 18, 19] (0, [4, 4])).getD j 0
        = ([10, 11, 12, 13, 14, 15, 16, 17, 18, 19] : List Nat).getD j 0) :=
  ⟨by decide, by decide, by decide, by decide,
    claim_C8 (fun _ _ => [9]) [⟨2, [1, 2, 3, 4, 5, 6]⟩]
      [10, 11, 12, 13, 14, 15, 16, 17, 18, 19] 0 [4, 4]
      ⟨2, [1, 2, 3, 4, 5, 6]⟩ [112, 121, 3, 4, 5, 6]
      (by decide) (by decide) (by decide) (by decide)⟩

/-! ## mini (`MiniOBBUnpacker`): skippable padding and descending level search -/

/-- The zstd skippable-frame magic `50 2A 4D 18`. -/
def SKIP_MAGIC : List Nat := [0x50, 0x2A, 0x4D, 0x18]

/-- Source `struct.pack('<I', n)`: 4 little-endian bytes. -/
def le32 (n : Nat) : List Nat :=
  [n % 256, n / 256 % 256, n / 65536 % 256, n / 16777216 % 256]

/-- The `while pad_len > 0` loop of `MiniOBBUnpacker.add_skippable_padding`,
fuel-indexed (each iteration removes at least 8 from `pad_len`, so fuel
`pad_len` suffices).  Returns the appended frame bytes together with the
overshoot `-pad_len` at loop exit (positive exactly when the final frame was
larger than the remaining pad). -/
def skippable_loop_aux : Nat → Nat → List Nat × Nat
  | 0, _ => ([], 0)
  | fuel+1, pad_len =>
      if pad_len = 0 then ([], 0)
      else if pad_len < 8 then (SKIP_MAGIC ++ le32 0, 8 - pad_len)
      else
        let frame_content_len := min (pad_len - 8) (1024 * 1024)
        let frame := SKIP_MAGIC ++ le32 frame_content_len
          ++ List.replicate frame_content_len 0
        let rest := skippable_loop_aux fuel (pad_len - (8 + frame_content_len))
        (frame ++ rest.1, rest.2)

def skippable_loop (pad_len : Nat) : List Nat × Nat :=
  skippable_loop_aux pad_len pad_len

/-- Source `MiniOBBUnpacker.add_skippable_padding(compressed, pad_len)`: append
skippable frames while pad remains, then trim the overshoot
(`result[:len(result)+pad_len]` when `pad_len` went negative).  The Python
parameter is an `int`; every call site passes `target_size -
len(compressed) ≥ 0`, so the model takes a `Nat`. -/
def add_skippable_padding (compressed : List Nat) (pad_len : Nat) : List Nat :=
  if pad_len = 0 then compressed
  else
    let fr := skippable_loop pad_len
    let result := compressed ++ fr.1
    if 0 < fr.2 then result.take (result.length - fr.2) else result

/-- The `for level in levels` loop of
`MiniOBBUnpacker.compress_to_target_size` over an abstract per-level
compressor. -/
def try_levels_mini (compress : Nat → List Nat) (target_size : Nat) :
    List Nat → Option (List Nat)
  | [] => none
  | l :: ls =>
      let c := compress l
      if c.length ≤ target_size then some c
      else try_levels_mini compress target_size ls

/-- Source `MiniOBBUnpacker.compress_to_target_size(data, target_size)`: guard
against non-positive target, descending levels `range(22, 0, -3)`, one
maximum-effort fallback (`ZstdCompressor(level=22, threads=-1)`, abstracted
as `ultra`), `None` on failure. -/
def compress_to_target_size (compress : Nat → List Nat) (ultra : List Nat)
    (target_size : Nat) : Option (List Nat) :=
  if target_size = 0 then none
  else
    match try_levels_mini compress target_size (pyRangeDown3 22) with
    | some c => some (add_skippable_padding c (target_size - c.length))
    | none =>
        if ultra.length ≤ target_size then
          some (add_skippable_padding ultra (target_size - ultra.length))
        else none

/-- The shape of the skippable padding that fills `p` bytes of slack: full
self-describing frames (4-byte magic, 4-byte little-endian content length
capped at 1 MiB, that many zero bytes) while at least 8 bytes remain, and the
leading `p` bytes of a zero-content frame when `0 < p < 8`. -/
inductive PaddingSpec : Nat → List Nat → Prop where
  | nil : PaddingSpec 0 []
  | frame (p : Nat) (rest : List Nat) (hp : 8 ≤ p)
      (hrest : PaddingSpec (p - (8 + min (p - 8) (1024 * 1024))) rest) :
      PaddingSpec p (SKIP_MAGIC ++ le32 (min (p - 8) (1024 * 1024))
        ++ List.replicate (min (p - 8) (1024 * 1024)) 0 ++ rest)
  | short (p : Nat) (hp1 : 0 < p) (hp2 : p < 8) :
      PaddingSpec p ((SKIP_MAGIC ++ le32 0).take p)

theorem skippable_loop_aux_len :
    ∀ fuel pad, pad ≤ fuel →
      (skippable_loop_aux fuel pad).1.length = pad + (skippable_loop_aux fuel pad).2 := by
  intro fuel
  induction fuel with
  | zero =>
      intro pad h
      have : pad = 0 := Nat.le_zero.mp h
      subst this; rfl
  | succ fuel ih =>
      intro pad h
      by_cases h0 : pad = 0
      · subst h0; rfl
      · by_cases h8 : pad < 8
        · simp only [skippable_loop_aux, if_neg h0, if_pos h8]
          simp [SKIP_MAGIC, le32]
          omega
        · simp only [skippable_loop_aux, if_neg h0, if_neg h8]
          have hrec := ih (pad - (8 + min (pad - 8) (1024 * 1024))) (by omega)
          simp only [List.length_append, List.length_replicate]
          rw [hrec]
          simp [SKIP_MAGIC, le32]
          omega

theorem skippable_loop_aux_spec :
    ∀ fuel pad, pad ≤ fuel →
      PaddingSpec pad ((skippable_loop_aux fuel pad).1.take pad) := by
  intro fuel
  induction fuel with
  | zero =>
      intro pad h
      have : pad = 0 := Nat.le_zero.mp h
      subst this
      exact PaddingSpec.nil
  | succ fuel ih =>
      intro pad h
      by_cases h0 : pad = 0
      · subst h0; exact PaddingSpec.nil
      · by_cases h8 : pad < 8
        · simp only [skippable_loop_aux, if_neg h0, if_pos h8]
          exact PaddingSpec.short pad (Nat.pos_of_ne_zero h0) h8
        · simp only [skippable_loop_aux, if_neg h0, if_neg h8]
          have hfl : (SKIP_MAGIC ++ le32 (min (pad - 8) (1024 * 1024))
              ++ List.replicate (min (pad - 8) (1024 * 1024)) 0).length
              = 8 + min (pad - 8) (1024 * 1024) := by
            simp [SKIP_MAGIC, le32]
            omega
          rw [List.take_append_eq_append_take,
            List.take_of_length_le (by rw [hfl]; omega), hfl]
          exact PaddingSpec.frame pad _ (by omega)
            (ih (pad - (8 + min (pad - 8) (1024 * 1024))) (by omega))

theorem add_skippable_padding_length (compressed : List Nat) (pad : Nat) :
    (add_skippable_padding compressed pad).length = compressed.length + pad := by
  unfold add_skippable_padding
  by_cases h0 : pad = 0
  · simp [h0]
  · rw [if_neg h0]
    have hl : (skippable_loop pad).1.length = pad + (skippable_loop pad).2 :=
      skippable_loop_aux_len pad pad le_rfl
    by_cases hov : 0 < (skippable_loop pad).2
    · rw [if_pos hov]
      simp only [List.length_take, List.length_append]
      omega
    · rw [if_neg hov]
      simp only [List.length_append]
      omega

theorem add_skippable_padding_decomp (compressed : List Nat) (pad : Nat) :
    add_skippable_padding compressed pad
      = compressed ++ ((skippable_loop pad).1.take pad) := by
  unfold add_skippable_padding
  by_cases h0 : pad = 0
  · subst h0; simp
  · rw [if_neg h0]
    have hl : (skippable_loop pad).1.length = pad + (skippable_loop pad).2 :=
      skippable_loop_aux_len pad pad le_rfl
    by_cases hov : 0 < (skippable_loop pad).2
    · rw [if_pos hov, List.take_append_eq_append_take,
        List.take_of_length_le (by simp only [List.length_append]; omega)]
      congr 2
      simp only [List.length_append]
      omega
    · rw [if_neg hov,
        List.take_of_length_le (le_of_eq (by omega))]

theorem try_levels_mini_some {compress : Nat → List Nat} {target : Nat} :
    ∀ ls t, try_levels_mini compress target ls = some t →
      ∃ l, l ∈ ls ∧ t = compress l ∧ t.length ≤ target := by
  intro ls
  induction ls with
  | nil => intro t h; exact absurd h (by simp [try_levels_mini])
  | cons l0 tl ih =>
      intro t h
      simp only [try_levels_mini] at h
      by_cases hfit : (compress l0).length ≤ target
      · rw [if_pos hfit] at h
        cases h
        exact ⟨l0, List.mem_cons_self l0 tl, rfl, hfit⟩
      · rw [if_neg hfit] at h
        obtain ⟨l, hl1, hl2, hl3⟩ := ih t h
        exact ⟨l, List.mem_cons_of_mem l0 hl1, hl2, hl3⟩

theorem try_levels_mini_first {compress : Nat → List Nat} {target : Nat} :
    ∀ ls t, ls.Pairwise (fun a b => b < a) →
      try_levels_mini compress target ls = some t →
      ∃ l, l ∈ ls ∧ t = compress l ∧ (compress l).length ≤ target ∧
        ∀ x, x ∈ ls → l < x → target < (compress x).length := by
  intro ls
  induction ls with
  | nil => intro t _ h; exact absurd h (by simp [try_levels_mini])
  | cons l0 tl ih =>
      intro t hsort h
      have hsort0 : ∀ x ∈ tl, x < l0 := (List.pairwise_cons.mp hsort).1
      simp only [try_levels_mini] at h
      by_cases hfit : (compress l0).length ≤ target
      · rw [if_pos hfit] at h
        cases h
        refine ⟨l0, List.mem_cons_self l0 tl, rfl, hfit, ?_⟩
        intro x hx hlt
        rcases List.mem_cons.mp hx with rfl | hx
        · omega
        · exact absurd (hsort0 x hx) (by omega)
      · rw [if_neg hfit] at h
        obtain ⟨l, hl1, hl2, hl3, hl4⟩ := ih t (List.Pairwise.sublist
          (List.sublist_cons_self l0 tl) hsort) h
        refine ⟨l, List.mem_cons_of_mem l0 hl1, hl2, hl3, ?_⟩
        intro x hx hlt
        rcases List.mem_cons.mp hx with rfl | hx
        · omega
        · exact hl4 x hx hlt

theorem try_levels_mini_none {compress : Nat → List Nat} {target : Nat} :
    ∀ ls, (∀ l ∈ ls, target < (compress l).length) →
      try_levels_mini compress target ls = none := by
  intro ls
  induction ls with
  | nil => intro _; rfl
  | cons l0 tl ih =>
      intro hbig
      simp only [try_levels_mini]
      rw [if_neg (by have := hbig l0 (List.mem_cons_self l0 tl); omega)]
      exact ih fun l hl => hbig l (List.mem_cons_of_mem l0 hl)

/-- C3: whenever `compress_to_target_size` succeeds, the result has length
exactly `target_size`; it is one of the compressor outputs followed by
padding whose shape satisfies `PaddingSpec` (self-describing skippable
frames, split at the 1 MiB content cap, with the truncated zero-content frame
for a remainder below one 8-byte header). -/
theorem claim_C3 (compress : Nat → List Nat) (ultra : List Nat)
    (target : Nat) (r : List Nat)
    (h : compress_to_target_size compress ultra target = some r) :
    r.length = target ∧
    ∃ cb, cb.length ≤ target ∧
      ((∃ l, l ∈ pyRangeDown3 22 ∧ cb = compress l) ∨ cb = ultra) ∧
      r = cb ++ ((skippable_loop (target - cb.length)).1.take (target - cb.length)) ∧
      PaddingSpec (target - cb.length) (r.drop cb.length) := by
  unfold compress_to_target_size at h
  by_cases h0 : target = 0
  · rw [if_pos h0] at h; exact absurd h (by simp)
  · rw [if_neg h0] at h
    cases htl : try_levels_mini compress target (pyRangeDown3 22) with
    | some c =>
        rw [htl] at h
        cases h
        obtain ⟨l, hl1, hl2, hl3⟩ := try_levels_mini_some (pyRangeDown3 22) c htl
        have hdec := add_skippable_padding_decomp c (target - c.length)
        have hlen := add_skippable_padding_length c (target - c.length)
        refine ⟨by omega, c, hl3, Or.inl ⟨l, hl1, hl2⟩, hdec, ?_⟩
        rw [hdec, List.drop_left]
        exact skippable_loop_aux_spec (target - c.length) (target - c.length) le_rfl
    | none =>
        rw [htl] at h
        by_cases hu : ultra.length ≤ target
        · rw [if_pos hu] at h
          cases h
          have hdec := add_skippable_padding_decomp ultra (target - ultra.length)
          have hlen := add_skippable_padding_length ultra (target - ultra.length)
          refine ⟨by omega, ultra, hu, Or.inr rfl, hdec, ?_⟩
          rw [hdec, List.drop_left]
          exact skippable_loop_aux_spec (target - ultra.length)
            (target - ultra.length) le_rfl
        · rw [if_neg hu] at h
          exact absurd h (by simp)

/-- Witness for `claim_C3`: no stepped level fits 12 bytes, the
maximum-effort output (empty) does; the result is one 12-byte skippable
frame. -/
theorem claim_C3_witness :
    compress_to_target_size (fun _ => List.replicate 100 0) [] 12
        = some [0x50, 0x2A, 0x4D, 0x18, 4, 0, 0, 0, 0, 0, 0, 0] ∧
    (([0x50, 0x2A, 0x4D, 0x18, 4, 0, 0, 0, 0, 0, 0, 0] : List Nat).length = 12 ∧
      ∃ cb, cb.length ≤ 12 ∧
        ((∃ l, l ∈ pyRangeDown3 22 ∧ cb = (fun (_ : Nat) => List.replicate 100 (0 : Nat)) l)
          ∨ cb = ([] : List Nat)) ∧
        ([0x50, 0x2A, 0x4D, 0x18, 4, 0, 0, 0, 0, 0, 0, 0] : List Nat)
          = cb ++ ((skippable_loop (12 - cb.length)).1.take (12 - cb.length)) ∧
        PaddingSpec (12 - cb.length)
          (([0x50, 0x2A, 0x4D, 0x18, 4, 0, 0, 0, 0, 0, 0, 0] : List Nat).drop cb.length)) :=
  ⟨by decide, claim_C3 (fun _ => List.replicate 100 0) [] 12
    [0x50, 0x2A, 0x4D, 0x18, 4, 0, 0, 0, 0, 0, 0, 0] (by decide)⟩

/-- C5: the mini slot-fit search runs the descending stepped levels
`range(22, 0, -3) = [22, 19, 16, 13, 10, 7, 4, 1]`, returns the first (i.e.
highest-tried) fitting level's padded output, and when none of the stepped
levels fits it falls back to exactly the one maximum-effort attempt, failing
only if that also exceeds the target. -/
theorem claim_C5 (compress : Nat → List Nat) (ultra : List Nat)
    (target : Nat) (h : 0 < target) :
    pyRangeDown3 22 = [22, 19, 16, 13, 10, 7, 4, 1] ∧
    (∀ t, try_levels_mini compress target (pyRangeDown3 22) = some t →
      ∃ l, l ∈ pyRangeDown3 22 ∧ t = compress l ∧
        (compress l).length ≤ target ∧
        (∀ x, x ∈ pyRangeDown3 22 → l < x → target < (compress x).length) ∧
        compress_to_target_size compress ultra target
          = some (add_skippable_padding (compress l)
              (target - (compress l).length))) ∧
    (try_levels_mini compress target (pyRangeDown3 22) = none →
      compress_to_target_size compress ultra target
        = if ultra.length ≤ target then
            some (add_skippable_padding ultra (target - ultra.length))
          else none) := by
  have hlist : pyRangeDown3 22 = [22, 19, 16, 13, 10, 7, 4, 1] := rfl
  refine ⟨hlist, ?_, ?_⟩
  · intro t htl
    obtain ⟨l, hl1, hl2, hl3, hl4⟩ := try_levels_mini_first (pyRangeDown3 22) t
      (by rw [hlist]; decide) htl
    refine ⟨l, hl1, hl2, hl3, hl4, ?_⟩
    unfold compress_to_target_size
    rw [if_neg (by omega), htl, hl2]
  · intro htl
    unfold compress_to_target_size
    rw [if_neg (by omega), htl]

/-- Witness for `claim_C5`: with `compress l = replicate l 0` and target 4,
the first fitting stepped level is 4. -/
theorem claim_C5_witness :
    (0 : Nat) < 4 ∧
    (pyRangeDown3 22 = [22, 19, 16, 13, 10, 7, 4, 1] ∧
    (∀ t, try_levels_mini (fun l => List.replicate l 0) 4 (pyRangeDown3 22) = some t →
      ∃ l, l ∈ pyRangeDown3 22 ∧ t = (fun l => List.replicate l (0 : Nat)) l ∧
        ((fun l => List.replicate l (0 : Nat)) l).length ≤ 4 ∧
        (∀ x, x ∈ pyRangeDown3 22 → l < x →
          4 < ((fun l => List.replicate l (0 : Nat)) x).length) ∧
        compress_to_target_size (fun l => List.replicate l 0) [9, 9] 4
          = some (add_skippable_padding ((fun l => List.replicate l (0 : Nat)) l)
              (4 - ((fun l => List.replicate l (0 : Nat)) l).length))) ∧
    (try_levels_mini (fun l => List.replicate l 0) 4 (pyRangeDown3 22) = none →
      compress_to_target_size (fun l => List.replicate l 0) [9, 9] 4
        = if ([9, 9] : List Nat).length ≤ 4 then
            some (add_skippable_padding [9, 9] (4 - ([9, 9] : List Nat).length))
          else none)) :=
  ⟨by decide, claim_C5 (fun l => List.replicate l 0) [9, 9] 4 (by decide)⟩

/-! ## mini repack loop (`MiniOBBUnpacker.repack_mini_obb`) -/

/-- Source `MiniOBBUnpacker.expected_magic = 28 B5 2F FD`. -/
def expected_magic : List Nat := [0x28, 0xB5, 0x2F, 0xFD]

/-- Source `MiniOBBUnpacker.find_xor_key(sig4, magic4)`:
`bytes([sig4[i] ^ magic4[i] for i in range(4)])`. -/
def find_xor_key (sig4 magic4 : List Nat) : List Nat :=
  (List.range 4).map (fun i => sig4.getD i 0 ^^^ magic4.getD i 0)

/-- One byte of the XOR-encode loop of `repack_mini_obb` (state: output so
far and the `prev` array).  The Python loop processes the payload in 64 KiB
chunks, but `base_idx = ptr % klen` realigns each chunk, so the chunked loop
equals this single pass. -/
def mini_xor_step (src : List Nat) (s : List Nat × List Nat) (j : Nat) :
    List Nat × List Nat :=
  let idx := j % s.2.length
  let r := src.getD j 0 ^^^ s.2.getD idx 0
  (s.1 ++ [r], s.2.set idx (src.getD j 0))

/-- The XOR-feedback encode of `repack_mini_obb` (lines 4114–4134): `prev`
starts as the key; each output byte is `src[j] ^ prev[j % klen]` and `prev`
is updated with the plaintext byte. -/
def mini_xor_encode (key src : List Nat) : List Nat :=
  ((List.range src.length).foldl (mini_xor_step src) ([], key)).1

/-- The byte budget of block `file_index`: distance from its signature offset
to the next one (or to EOF for the last block). -/
def mini_target (offsets : List Nat) (original : List Nat) (file_index : Nat) : Nat :=
  (if file_index + 1 < offsets.length then offsets.getD (file_index + 1) 0
   else original.length) - offsets.getD file_index 0

/-- One iteration of the UEXP loop of `repack_mini_obb`: index check,
`compress_to_target_size` (on `None` the file is skipped and the buffer left
untouched), signature read from the *original* container, XOR-encode, write
at the block's offset. -/
def mini_process_one (compress : Nat → List Nat → List Nat)
    (ultra : List Nat → List Nat) (original : List Nat) (offsets : List Nat)
    (buf : List Nat) (job : Nat × List Nat) : List Nat :=
  let file_index := job.1
  let content := job.2
  if file_index < offsets.length then
    let start := offsets.getD file_index 0
    let target := mini_target offsets original file_index
    match compress_to_target_size (fun l => compress l content)
        (ultra content) target with
    | none => buf
    | some cc =>
        let sig4 := (original.drop start).take 4
        if sig4.length < 4 then buf
        else
          let key := find_xor_key sig4 expected_magic
          splice buf start (start + cc.length) (mini_xor_encode key cc)
  else buf

/-- The whole UEXP loop of `repack_mini_obb`. -/
def mini_repack_all (compress : Nat → List Nat → List Nat)
    (ultra : List Nat → List Nat) (original : List Nat) (offsets : List Nat)
    (jobs : List (Nat × List Nat)) (buf : List Nat) : List Nat :=
  jobs.foldl (mini_process_one compress ultra original offsets) buf

/-- C4: when no compression level (maximum-effort attempt included) fits the
segment's byte budget, both repack loops report the failure for that segment
only: the container buffer is returned byte-identical, and the fold over the
remaining segments proceeds exactly as if the failing segment were absent —
the overall repack never aborts.  Stated for the zsdic loop
(`PAKTool.repack`) and the mini loop (`repack_mini_obb`) together. -/
theorem claim_C4
    (compress : Nat → List Nat → List Nat) (dat_files : List DatInfo)
    (pak : List Nat) (idx : Nat) (edited : List Nat)
    (jobs : List (Nat × List Nat))
    (mcompress : Nat → List Nat → List Nat) (multra : List Nat → List Nat)
    (original : List Nat) (offsets : List Nat) (buf : List Nat)
    (fidx : Nat) (content : List Nat) (mjobs : List (Nat × List Nat))
    (h1 : ∀ l, l ∈ pyRange 1 23 →
      ((dat_files.getD idx ⟨0, []⟩).data.length : Int) - 4
        < ((compress l edited).length : Int))
    (h2 : ∀ l, l ∈ pyRangeDown3 22 →
      mini_target offsets original fidx < (mcompress l content).length)
    (h3 : mini_target offsets original fidx < (multra content).length) :
    zsdic_process_one compress dat_files pak (idx, edited) = pak ∧
    zsdic_repack_all compress dat_files ((idx, edited) :: jobs) pak
      = zsdic_repack_all compress dat_files jobs pak ∧
    mini_process_one mcompress multra original offsets buf (fidx, content) = buf ∧
    mini_repack_all mcompress multra original offsets ((fidx, content) :: mjobs) buf
      = mini_repack_all mcompress multra original offsets mjobs buf := by
  have hz : zsdic_process_one compress dat_files pak (idx, edited) = pak := by
    unfold zsdic_process_one
    by_cases hidx : idx < dat_files.length
    · rw [if_pos hidx]
      dsimp only
      have hnone : zsdic_repack_segment (fun l => compress l edited)
          (dat_files.getD idx ⟨0, []⟩).data = none := by
        unfold zsdic_repack_segment
        dsimp only
        have hnl : try_levels_zsdic (fun l => compress l edited)
            (((dat_files.getD idx ⟨0, []⟩).data.length : Int) - 4)
            (pyRange 1 23) = none :=
          try_levels_zsdic_none 22 1
            (fun l hl1 hl2 => h1 l (pyRangeAux_mem_of hl1 hl2))
        rw [hnl]
      rw [hnone]
    · rw [if_neg hidx]
  have hm : mini_process_one mcompress multra original offsets buf
      (fidx, content) = buf := by
    unfold mini_process_one
    by_cases hidx : fidx < offsets.length
    · rw [if_pos hidx]
      dsimp only
      have hnone : compress_to_target_size (fun l => mcompress l content)
          (multra content) (mini_target offsets original fidx) = none := by
        unfold compress_to_target_size
        by_cases h0 : mini_target offsets original fidx = 0
        · rw [if_pos h0]
        · rw [if_neg h0, try_levels_mini_none (pyRangeDown3 22) h2,
            if_neg (by omega)]
      rw [hnone]
    · rw [if_neg hidx]
  refine ⟨hz, ?_, hm, ?_⟩
  · unfold zsdic_repack_all
    rw [List.foldl_cons, hz]
  · unfold mini_repack_all
    rw [List.foldl_cons, hm]

/-- Witness for `claim_C4`: every compressor output is 50 bytes, the zsdic
budget is 6 and the mini budget is 3. -/
theorem claim_C4_witness :
    (∀ l, l ∈ pyRange 1 23 →
      ((([⟨0, [1, 2, 3, 4, 5, 6, 7, 8, 9, 10]⟩] : List DatInfo).getD 0
          ⟨0, []⟩).data.length : Int) - 4
        < (((fun (_ : Nat) (_ : List Nat) => List.replicate 50 (0 : Nat)) l
            [7]).length : Int)) ∧
    (∀ l, l ∈ pyRangeDown3 22 →
      mini_target [2, 5] [0, 1, 2, 3, 4, 5, 6, 7] 0
        < (((fun (_ : Nat) (_ : List Nat) => List.replicate 50 (0 : Nat)) l
            [7]).length)) ∧
    (mini_target [2, 5] [0, 1, 2, 3, 4, 5, 6, 7] 0
      < (((fun (_ : List Nat) => List.replicate 50 (0 : Nat)) [7]).length)) ∧
    (zsdic_process_one (fun _ _ => List.replicate 50 0)
        [⟨0, [1, 2, 3, 4, 5, 6, 7, 8, 9, 10]⟩]
        [9, 9, 9, 9, 9, 9, 9, 9, 9, 9] (0, [7])
      = [9, 9, 9, 9, 9, 9, 9, 9, 9, 9] ∧
    zsdic_repack_all (fun _ _ => List.replicate 50 0)
        [⟨0, [1, 2, 3, 4, 5, 6, 7, 8, 9, 10]⟩]
        ((0, [7]) :: [(0, [8])]) [9, 9, 9, 9, 9, 9, 9, 9, 9, 9]
      = zsdic_repack_all (fun _ _ => List.replicate 50 0)
        [⟨0, [1, 2, 3, 4, 5, 6, 7, 8, 9, 10]⟩]
        [(0, [8])] [9, 9, 9, 9, 9, 9, 9, 9, 9, 9] ∧
    mini_process_one (fun _ _ => List.replicate 50 0)
        (fun _ => List.replicate 50 0) [0, 1, 2, 3, 4, 5, 6, 7] [2, 5]
        [9, 9, 9, 9, 9, 9, 9, 9] (0, [7])
      = [9, 9, 9, 9, 9, 9, 9, 9] ∧
    mini_repack_all (fun _ _ => List.replicate 50 0)
        (fun _ => List.replicate 50 0) [0, 1, 2, 3, 4, 5, 6, 7] [2, 5]
        ((0, [7]) :: []) [9, 9, 9, 9, 9, 9, 9, 9]
      = mini_repack_all (fun _ _ => List.replicate 50 0)
        (fun _ => List.replicate 50 0) [0, 1, 2, 3, 4, 5, 6, 7] [2, 5]
        [] [9, 9, 9, 9, 9, 9, 9, 9]) :=
  ⟨by decide, by decide, by decide,
    claim_C4 (fun _ _ => List.replicate 50 0)
      [⟨0, [1, 2, 3, 4, 5, 6, 7, 8, 9, 10]⟩] [9, 9, 9, 9, 9, 9, 9, 9, 9, 9]
      0 [7] [(0, [8])]
      (fun _ _ => List.replicate 50 0) (fun _ => List.replicate 50 0)
      [0, 1, 2, 3, 4, 5, 6, 7] [2, 5] [9, 9, 9, 9, 9, 9, 9, 9]
      0 [7] []
      (by decide) (by decide) (by decide)⟩

/-! ## Dictionary lookup (`PAKTool.find_dictionary`) -/

/-- Source `PAKTool.DICT_MARKER = 37 A4 30 EC`. -/
def DICT_MARKER : List Nat := [0x37, 0xA4, 0x30, 0xEC]

/-- Source `PAKTool.DICT_SIZE = 1024 * 1024`. -/
def DICT_SIZE : Nat := 1024 * 1024

/-- Fuel-indexed model of Python `bytes.find(pattern, i)` scanning upward
from `i`; fuel `data.length + 1 - i` covers every index at which a nonempty
pattern can still match. -/
def bytes_find_aux (data pattern : List Nat) : Nat → Nat → Option Nat
  | 0, _ => none
  | fuel+1, i =>
      if pattern.isPrefixOf (data.drop i) then some i
      else bytes_find_aux data pattern fuel (i+1)

/-- Python `data.find(pattern, start)` (`-1` becomes `none`). -/
def bytes_find (data pattern : List Nat) (start : Nat) : Option Nat :=
  bytes_find_aux data pattern (data.length + 1 - start) start

/-- Source `PAKTool.find_dictionary(pak_data)`: locate the first marker occurrence
and slice `pak_data[dict_pos : dict_pos + DICT_SIZE]`; a missing marker
raises `ValueError` (modelled as `none`). -/
def find_dictionary (pak_data : List Nat) : Option (List Nat × Nat) :=
  match bytes_find pak_data DICT_MARKER 0 with
  | none => none
  | some dict_pos => some ((pak_data.drop dict_pos).take DICT_SIZE, dict_pos)

theorem bytes_find_aux_some {data pattern : List Nat} :
    ∀ fuel i r, bytes_find_aux data pattern fuel i = some r →
      i ≤ r ∧ pattern.isPrefixOf (data.drop r) = true ∧
      ∀ q, i ≤ q → q < r → pattern.isPrefixOf (data.drop q) = false := by
  intro fuel
  induction fuel with
  | zero => intro i r h; exact absurd h (by simp [bytes_find_aux])
  | succ fuel ih =>
      intro i r h
      simp only [bytes_find_aux] at h
      by_cases hpre : pattern.isPrefixOf (data.drop i) = true
      · rw [if_pos hpre] at h
        cases h
        exact ⟨le_rfl, hpre, fun q h1 h2 => absurd h1 (by omega)⟩
      · rw [if_neg hpre] at h
        obtain ⟨h1, h2, h3⟩ := ih (i+1) r h
        refine ⟨by omega, h2, ?_⟩
        intro q hq1 hq2
        rcases Nat.eq_or_lt_of_le hq1 with rfl | hlt
        · exact Bool.not_eq_true _ ▸ (by simpa using hpre)
        · exact h3 q hlt hq2

/-- C6 counterexample: the code's dictionary slice *starts at* the marker
offset and therefore begins with the marker bytes themselves, not with the
bytes immediately following the 4-byte marker as the claim states. -/
theorem claim_C6_counterexample :
    find_dictionary [0x37, 0xA4, 0x30, 0xEC, 0xAB]
        = some ([0x37, 0xA4, 0x30, 0xEC, 0xAB], 0) ∧
    ([0x37, 0xA4, 0x30, 0xEC, 0xAB] : List Nat)
      ≠ (([0x37, 0xA4, 0x30, 0xEC, 0xAB] : List Nat).drop (0 + 4)).take DICT_SIZE := by
  decide

/-- C6 amended: the dictionary is the `DICT_SIZE = 1,048,576`-byte slice
starting *at* the first marker occurrence (so it begins with the 4 marker
bytes); the marker position is the least index where the marker matches; and
an absent marker fails the open for that container. -/
theorem claim_C6 (pak : List Nat) :
    (bytes_find pak DICT_MARKER 0 = none → find_dictionary pak = none) ∧
    ∀ d p, find_dictionary pak = some (d, p) →
      d = (pak.drop p).take DICT_SIZE ∧
      DICT_MARKER.isPrefixOf (pak.drop p) = true ∧
      ∀ q, q < p → DICT_MARKER.isPrefixOf (pak.drop q) = false := by
  constructor
  · intro h
    unfold find_dictionary
    rw [h]
  · intro d p h
    unfold find_dictionary at h
    cases hf : bytes_find pak DICT_MARKER 0 with
    | none => rw [hf] at h; exact absurd h (by simp)
    | some r =>
        rw [hf] at h
        obtain ⟨h1, h2, h3⟩ := bytes_find_aux_some (pak.length + 1) 0 r hf
        cases h
        exact ⟨rfl, h2, fun q hq => h3 q (Nat.zero_le q) hq⟩

/-- Witness for `claim_C6` on a container with the marker at offset 1. -/
theorem claim_C6_witness :
    find_dictionary [9, 0x37, 0xA4, 0x30, 0xEC, 0xAB]
        = some ([0x37, 0xA4, 0x30, 0xEC, 0xAB], 1) ∧
    (([0x37, 0xA4, 0x30, 0xEC, 0xAB] : List Nat)
        = (([9, 0x37, 0xA4, 0x30, 0xEC, 0xAB] : List Nat).drop 1).take DICT_SIZE ∧
      DICT_MARKER.isPrefixOf (([9, 0x37, 0xA4, 0x30, 0xEC, 0xAB] : List Nat).drop 1)
        = true ∧
      ∀ q, q < 1 →
        DICT_MARKER.isPrefixOf (([9, 0x37, 0xA4, 0x30, 0xEC, 0xAB] : List Nat).drop q)
          = false) :=
  ⟨by decide,
    (claim_C6 [9, 0x37, 0xA4, 0x30, 0xEC, 0xAB]).2
      [0x37, 0xA4, 0x30, 0xEC, 0xAB] 1 (by decide)⟩

/-! ## Segment decompression (`PAKTool.decompress_dat`) -/

/-- Source `PAKTool.decompress_dat(dat_data_with_magic, dictionary)`: XOR-decrypt
(magic included), then read 64 KiB chunks from the zstd stream reader until
it yields no chunk or raises `ZstdError`, returning the accumulated bytes.
The external zstd reader is abstracted as a function producing the chunk
sequence together with a flag telling whether it then stops with an error
(`True`) or cleanly (`False`); the `try/except ZstdError: pass` makes the
flag irrelevant to the result. -/
def decompress_dat (decoder : List Nat → List (List Nat) × Bool)
    (dat_data_with_magic : List Nat) : List Nat :=
  let decrypted := xor_decrypt dat_data_with_magic
  ((decoder decrypted).1).foldl (fun acc chunk => acc ++ chunk) []

/-- C7: segment decompression never propagates a decode error — the result
is exactly the concatenation of the chunks produced before the decoder
stops, whether or not the decoder then errors, and an empty chunk sequence
yields the empty byte string. -/
theorem claim_C7 (decoder decoder2 : List Nat → List (List Nat) × Bool)
    (dat : List Nat) (chunks : List (List Nat)) (err : Bool)
    (h : decoder (xor_decrypt dat) = (chunks, err))
    (hagree : (decoder2 (xor_decrypt dat)).1 = chunks) :
    decompress_dat decoder dat = chunks.foldl (fun acc chunk => acc ++ chunk) [] ∧
    decompress_dat decoder2 dat = decompress_dat decoder dat ∧
    (chunks = [] → decompress_dat decoder dat = []) := by
  unfold decompress_dat
  simp only []
  rw [h, hagree]
  refine ⟨rfl, rfl, ?_⟩
  intro hc
  rw [hc]
  rfl

/-- Witness for `claim_C7`: a decoder yielding chunks `[1]`, `[2, 3]` and
then an error, against one yielding the same chunks cleanly. -/
theorem claim_C7_witness :
    ((fun (_ : List Nat) => ([[1], [2, 3]], true)) (xor_decrypt [0])
        = ([[(1 : Nat)], [2, 3]], true)) ∧
    (((fun (_ : List Nat) => ([[1], [2, 3]], false)) (xor_decrypt [0])).1
        = [[(1 : Nat)], [2, 3]]) ∧
    (decompress_dat (fun _ => ([[1], [2, 3]], true)) [0]
        = ([[(1 : Nat)], [2, 3]] : List (List Nat)).foldl
            (fun acc chunk => acc ++ chunk) [] ∧
      decompress_dat (fun _ => ([[1], [2, 3]], false)) [0]
        = decompress_dat (fun _ => ([[1], [2, 3]], true)) [0] ∧
      (([[(1 : Nat)], [2, 3]] : List (List Nat)) = [] →
        decompress_dat (fun _ => ([[1], [2, 3]], true)) [0] = [])) :=
  ⟨by decide, by decide,
    claim_C7 (fun _ => ([[1], [2, 3]], true)) (fun _ => ([[1], [2, 3]], false))
      [0] [[1], [2, 3]] true (by decide) (by decide)⟩

/-! ## Heuristic stream scanner (`scan_and_extract_smart_embedded`) -/

/-- Source `is_valid_zlib_header_embedded(b1, b2)`. -/
def is_valid_zlib_header_embedded (b1 b2 : Nat) : Bool :=
  if b1 &&& 0x0F ≠ 8 then false
  else ((b1 <<< 8) ||| b2) % 31 = 0

/-- The two compressed-stream modes the scanner knows. -/
inductive ZMode where
  | zlib
  | gzip
  deriving Repr, DecidableEq

/-- The body of one decompression attempt in `try_decompress_at_embedded`:
the external zlib call is abstracted as `attempt mode s = some (res_len,
consumed, eof)` (or `none` for a raised exception); the function then applies
the source's acceptance filters `if not d.eof: continue` and `if consumed <=
0 or res is None or len(res) < 32: continue`. -/
def tda_accept (attempt : ZMode → Nat → Option (Nat × Nat × Bool))
    (m : ZMode) (s : Nat) : Option Nat :=
  match attempt m s with
  | none => none
  | some (res_len, consumed, eof) =>
      if eof = false then none
      else if consumed = 0 ∨ res_len < 32 then none
      else some consumed

/-- The `for ofs in range(0, max_offset + 1)` loop of
`try_decompress_at_embedded`: stop at `s >= length - 2`, try the zlib header
(first byte `0x78` and a valid CMF/FLG pair), then the gzip header
(`1F 8B`), return `(ofs, consumed, mode)` on the first accepted attempt. -/
def tda_loop (attempt : ZMode → Nat → Option (Nat × Nat × Bool))
    (buf : List Nat) (start : Nat) : List Nat → Option (Nat × Nat × ZMode)
  | [] => none
  | ofs :: rest =>
      let s := start + ofs
      if buf.length - 2 ≤ s then none
      else
        match (if buf.getD s 0 = 0x78 ∧
            is_valid_zlib_header_embedded (buf.getD s 0) (buf.getD (s+1) 0) = true
          then tda_accept attempt ZMode.zlib s else none) with
        | some consumed => some (ofs, consumed, ZMode.zlib)
        | none =>
            match (if s + 1 < buf.length ∧ buf.getD s 0 = 0x1F ∧
                buf.getD (s+1) 0 = 0x8B
              then tda_accept attempt ZMode.gzip s else none) with
            | some consumed => some (ofs, consumed, ZMode.gzip)
            | none => tda_loop attempt buf start rest

/-- Source `try_decompress_at_embedded(buf, start, max_offset)`. -/
def try_decompress_at_embedded (attempt : ZMode → Nat → Option (Nat × Nat × Bool))
    (buf : List Nat) (start max_offset : Nat) : Option (Nat × Nat × ZMode) :=
  tda_loop attempt buf start (pyRange 0 (max_offset + 1))

/-- Source `find_next_candidate(p)` inside `scan_and_extract_smart_embedded`: the
smaller of the next `0x78` byte and the next `1F 8B` pair at or after `p`. -/
def find_next_candidate (data : List Nat) (p : Nat) : Option Nat :=
  match bytes_find data [0x78] p, bytes_find data [0x1F, 0x8B] p with
  | some i, some j => some (min i j)
  | some i, none => some i
  | none, some j => some j
  | none, none => none

/-- One manifest entry recorded by the scanner (the file-system fields
`relpath`/`ext` are I/O side effects and are not modelled). -/
structure ScanEntry where
  index : Nat
  start : Nat
  consumed : Nat
  mode : ZMode
  deriving Repr, DecidableEq

/-- The `while True` loop of `scan_and_extract_smart_embedded`, fuel-indexed:
find the next candidate, stop at `cand >= length - 2`, trial-decompress with
window 8; on success record the entry and resume at `start_pos + consumed`,
otherwise resume at `cand + 1`. -/
def scan_loop (attempt : ZMode → Nat → Option (Nat × Nat × Bool))
    (data : List Nat) : Nat → Nat → Nat → List ScanEntry
  | 0, _, _ => []
  | fuel+1, pos, count =>
      match find_next_candidate data pos with
      | none => []
      | some cand =>
          if data.length - 2 ≤ cand then []
          else
            match try_decompress_at_embedded attempt data cand 8 with
            | some (ofs, consumed, mode) =>
                { index := count + 1, start := cand + ofs
                  consumed := consumed, mode := mode }
                  :: scan_loop attempt data fuel (cand + ofs + consumed) (count + 1)
            | none => scan_loop attempt data fuel (cand + 1) count

/-- Source `scan_and_extract_smart_embedded(data, ...)` restricted to the manifest
it records; the candidate position advances at every iteration, so fuel
`data.length + 1` is never the binding constraint for the accepted entries. -/
def scan_and_extract_smart_embedded
    (attempt : ZMode → Nat → Option (Nat × Nat × Bool)) (data : List Nat) :
    List ScanEntry :=
  scan_loop attempt data (data.length + 1) 0 0

theorem bytes_find_ge {data pattern : List Nat} {start r : Nat}
    (h : bytes_find data pattern start = some r) : start ≤ r :=
  (bytes_find_aux_some (data.length + 1 - start) start r h).1

theorem find_next_candidate_ge {data : List Nat} {p c : Nat}
    (h : find_next_candidate data p = some c) : p ≤ c := by
  unfold find_next_candidate at h
  cases h1 : bytes_find data [0x78] p with
  | some i =>
      cases h2 : bytes_find data [0x1F, 0x8B] p with
      | some j =>
          rw [h1, h2] at h
          cases h
          exact le_min (bytes_find_ge h1) (bytes_find_ge h2)
      | none =>
          rw [h1, h2] at h
          cases h
          exact bytes_find_ge h1
  | none =>
      cases h2 : bytes_find data [0x1F, 0x8B] p with
      | some j =>
          rw [h1, h2] at h
          cases h
          exact bytes_find_ge h2
      | none => rw [h1, h2] at h; exact absurd h (by simp)

theorem scan_loop_start_ge (attempt : ZMode → Nat → Option (Nat × Nat × Bool))
    (data : List Nat) :
    ∀ fuel pos count e, e ∈ scan_loop attempt data fuel pos count →
      pos ≤ e.start := by
  intro fuel
  induction fuel with
  | zero => intro pos count e h; exact absurd h (by simp [scan_loop])
  | succ fuel ih =>
      intro pos count e h
      simp only [scan_loop] at h
      cases hc : find_next_candidate data pos with
      | none => rw [hc] at h; exact absurd h (by simp)
      | some cand =>
          rw [hc] at h
          dsimp only at h
          have hpc : pos ≤ cand := find_next_candidate_ge hc
          by_cases hend : data.length - 2 ≤ cand
          · rw [if_pos hend] at h; exact absurd h (by simp)
          · rw [if_neg hend] at h
            cases ht : try_decompress_at_embedded attempt data cand 8 with
            | some v =>
                obtain ⟨ofs, consumed, mode⟩ := v
                rw [ht] at h
                rcases List.mem_cons.mp h with rfl | h
                · dsimp only; omega
                · have := ih (cand + ofs + consumed) (count + 1) e h
                  omega
            | none =>
                rw [ht] at h
                have := ih (cand + 1) count e h
                omega

theorem scan_loop_pairwise (attempt : ZMode → Nat → Option (Nat × Nat × Bool))
    (data : List Nat) :
    ∀ fuel pos count, (scan_loop attempt data fuel pos count).Pairwise
      (fun a b => a.start + a.consumed ≤ b.start) := by
  intro fuel
  induction fuel with
  | zero => intro pos count; exact List.Pairwise.nil
  | succ fuel ih =>
      intro pos count
      simp only [scan_loop]
      cases hc : find_next_candidate data pos with
      | none => exact List.Pairwise.nil
      | some cand =>
          dsimp only
          by_cases hend : data.length - 2 ≤ cand
          · rw [if_pos hend]; exact List.Pairwise.nil
          · rw [if_neg hend]
            cases ht : try_decompress_at_embedded attempt data cand 8 with
            | some v =>
                obtain ⟨ofs, consumed, mode⟩ := v
                refine List.pairwise_cons.mpr ⟨?_, ih _ _⟩
                intro b hb
                have := scan_loop_start_ge attempt data fuel
                  (cand + ofs + consumed) (count + 1) b hb
                dsimp only
                omega
            | none => exact ih _ _

/-- C9: the manifest recorded by the heuristic stream scanner is ordered and
non-overlapping — each entry starts at or after the previous entry's start
plus its consumed byte count (pairwise along the manifest, which is exactly
`entry[i].start + entry[i].consumed ≤ entry[j].start` for `i < j`). -/
theorem claim_C9 (attempt : ZMode → Nat → Option (Nat × Nat × Bool))
    (data : List Nat) :
    (scan_and_extract_smart_embedded attempt data).Pairwise
      (fun a b => a.start + a.consumed ≤ b.start) :=
  scan_loop_pairwise attempt data (data.length + 1) 0 0

end VryMobile
